import Mathlib

/-!
Shallow embedding of the numerical core of the pangeo-pyinterp repository,
used to check the natural-language specification against the code.

Machine floating-point values are embedded as exact rationals (`ℚ`); missing
samples (NaN) are embedded as `Option.none`.  External collaborators (boost
geometry strategies, GSL spline kernels) enter as explicit function
parameters; parts of the repository whose sources are not available (the
`detail::Axis` lookup routines and the frame loader) are modelled from the
specification and marked as such in their doc comments.
-/

namespace PyInterp

/-! ## `pyinterp::detail::math::linear`
(src/pyinterp/core/include/pyinterp/detail/math/linear.hpp)

```cpp
constexpr auto linear(const T& x, const T& x0, const T& x1, const U& y0,
                      const U& y1) -> U {
  auto dx = static_cast<U>(x1 - x0);
  auto t = static_cast<U>(x1 - x) / dx;
  auto u = static_cast<U>(x - x0) / dx;
  return t * y0 + u * y1 / (t + u);
}
```
(C++ precedence: `t * y0 + ((u * y1) / (t + u))`.)
-/

def linear (x x0 x1 y0 y1 : ℚ) : ℚ :=
  let dx := x1 - x0
  let t := (x1 - x) / dx
  let u := (x - x0) / dx
  t * y0 + u * y1 / (t + u)

/-- The closing step of `spline_3d` (part_005, lines 146–149): the two planar
spline results `z0`, `z1` at the Z-bracket planes `frame.z(0)`, `frame.z(1)`
are combined by `detail::math::linear(zi, frame.z(0), frame.z(1), z0, z1)`. -/
def spline_3d_close_z (zi zlo zhi v0 v1 : ℚ) : ℚ :=
  linear zi zlo zhi v0 v1

/-- The textbook linear interpolation `t·y0 + u·y1`. -/
def linear_textbook (x x0 x1 y0 y1 : ℚ) : ℚ :=
  ((x1 - x) / (x1 - x0)) * y0 + ((x - x0) / (x1 - x0)) * y1

theorem linear_t_add_u (x x0 x1 : ℚ) (h : x0 ≠ x1) :
    (x1 - x) / (x1 - x0) + (x - x0) / (x1 - x0) = 1 := by
  have hdx : x1 - x0 ≠ 0 := sub_ne_zero.mpr (Ne.symm h)
  field_simp

/-- C1: for `x0 ≠ x1` the helper `linear` agrees, in exact rational
arithmetic, with the textbook interpolation `t·y0 + u·y1` where
`t = (x1−x)/(x1−x0)` and `u = (x−x0)/(x1−x0)`, because `t + u = 1`;
the `spline_3d` Z-closing step is exactly this helper. -/
theorem linear_eq_textbook (x x0 x1 y0 y1 : ℚ) (h : x0 ≠ x1) :
    linear x x0 x1 y0 y1 =
      ((x1 - x) / (x1 - x0)) * y0 + ((x - x0) / (x1 - x0)) * y1 ∧
    (x1 - x) / (x1 - x0) + (x - x0) / (x1 - x0) = 1 ∧
    spline_3d_close_z x x0 x1 y0 y1 = linear_textbook x x0 x1 y0 y1 := by
  have hsum := linear_t_add_u x x0 x1 h
  have hdx : x1 - x0 ≠ 0 := sub_ne_zero.mpr (Ne.symm h)
  refine ⟨?_, hsum, ?_⟩
  · dsimp only [linear]
    rw [hsum]
    ring
  · dsimp only [spline_3d_close_z, linear, linear_textbook]
    rw [hsum]
    ring

/-- Witness for `linear_eq_textbook` at `x = 1/2, x0 = 0, x1 = 2, y0 = 4, y1 = 8`. -/
theorem linear_eq_textbook_witness :
    linear (1/2) 0 2 4 8 =
      ((2 - 1/2) / (2 - 0)) * 4 + ((1/2 - 0) / (2 - 0)) * 8 ∧
    (2 - 1/2 : ℚ) / (2 - 0) + (1/2 - 0) / (2 - 0) = 1 ∧
    spline_3d_close_z (1/2) 0 2 4 8 = linear_textbook (1/2) 0 2 4 8 :=
  linear_eq_textbook (1/2) 0 2 4 8 (by norm_num)

/-! ## Poisson gap fill (src/unnamed/part_004, `pyinterp::detail` and
`pyinterp::fill`)

Grids are embedded as lists of rows: `grid(ix, iy)` is row `ix`, column `iy`,
exactly as the Eigen matrix is indexed in the source.  The driver's input
grid, which may contain NaN, is an `OMat` (`none` = NaN); after the first
guess every cell is defined, a `Mat`. -/

abbrev Mat := List (List ℚ)

abbrev OMat := List (List (Option ℚ))

def mget (g : Mat) (ix iy : Nat) : ℚ := (g.getD ix []).getD iy 0

def mset (g : Mat) (ix iy : Nat) (v : ℚ) : Mat :=
  g.set ix ((g.getD ix []).set iy v)

def oget (g : OMat) (ix iy : Nat) : Option ℚ := (g.getD ix []).getD iy none

/-- `cell_fill` of the worker lambda in `detail::poisson_grid_fill`: updates
`grid(ix, iy)` in place by the relaxation residual and folds the absolute
residual into the running maximum. -/
def cell_fill (relaxation : ℚ) (st : Mat × ℚ) (ix0 ix ix1 iy0 iy iy1 : Nat) :
    Mat × ℚ :=
  let g := st.1
  let residual :=
    ((1/4 : ℚ) * (mget g ix0 iy + mget g ix1 iy + mget g ix iy0 + mget g ix iy1)
      - mget g ix iy) * relaxation
  (mset g ix iy (mget g ix iy + residual), max st.2 |residual|)

/-- One row `iy` of the worker loop: mirror neighbours in Y at the edges,
interior X cells first, then the two X edges (circular or mirror). -/
def poisson_row (mask : Nat → Nat → Bool) (is_circle : Bool) (relaxation : ℚ)
    (x_size y_size : Nat) (st : Mat × ℚ) (iy : Nat) : Mat × ℚ :=
  let iy0 := if iy = 0 then 1 else iy - 1
  let iy1 := if iy = y_size - 1 then y_size - 2 else iy + 1
  let st := (List.range' 1 (x_size - 2)).foldl
    (fun s ix =>
      if mask ix iy then cell_fill relaxation s (ix - 1) ix (ix + 1) iy0 iy iy1
      else s) st
  let st := if mask 0 iy then
      cell_fill relaxation st (if is_circle then x_size - 1 else 1) 0 1 iy0 iy iy1
    else st
  if mask (x_size - 1) iy then
    cell_fill relaxation st (x_size - 2) (x_size - 1)
      (if is_circle then 0 else x_size - 2) iy0 iy iy1
  else st

/-- The worker of `detail::poisson_grid_fill`, processing the strip of rows
`[y_start, y_end)` with its per-thread maximum residual initialised to 0. -/
def poisson_worker (mask : Nat → Nat → Bool) (is_circle : Bool)
    (relaxation : ℚ) (x_size y_size : Nat) (g : Mat) (y_start y_end : Nat) :
    Mat × ℚ :=
  (List.range' y_start (y_end - y_start)).foldl
    (poisson_row mask is_circle relaxation x_size y_size) (g, 0)

/-- `detail::poisson_grid_fill` with `num_threads == 1`: `worker(0, y_size)`. -/
def poisson_grid_fill_1 (mask : Nat → Nat → Bool) (is_circle : Bool)
    (relaxation : ℚ) (x_size y_size : Nat) (g : Mat) : Mat × ℚ :=
  poisson_worker mask is_circle relaxation x_size y_size g 0 y_size

/-- The strip partition built by `detail::poisson_grid_fill` when
`num_threads > 1`: `shift = y_size / num_threads`; the first
`num_threads − 1` workers get `[i·shift, (i+1)·shift)` and the last worker
is launched on `[start, y_size − 1)` (as in the source — not `y_size`). -/
def thread_ranges (num_threads y_size : Nat) : List (Nat × Nat) :=
  if num_threads = 1 then [(0, y_size)]
  else
    let shift := y_size / num_threads
    (List.range (num_threads - 1)).map (fun i => (i * shift, (i + 1) * shift))
      ++ [((num_threads - 1) * shift, y_size - 1)]

/-- The grid rows processed during one call of `detail::poisson_grid_fill`:
union of the workers' strips. -/
def rows_processed (num_threads y_size : Nat) : List Nat :=
  ((thread_ranges num_threads y_size).map
    (fun r => List.range' r.1 (r.2 - r.1))).flatten

/-- `detail::poisson_grid_fill` with `num_threads > 1`, under the race-free
schedule in which the workers' strips are applied in launch order (when the
masked cells of distinct strips do not read each other's writes — as in the
counterexample below, where only one strip has masked cells — every
interleaving yields this result).  Each worker has its own maximum-residual
slot; the function returns the maximum over all slots, all of which the
workers initialise to 0. -/
def poisson_grid_fill_threaded (mask : Nat → Nat → Bool) (is_circle : Bool)
    (relaxation : ℚ) (x_size y_size num_threads : Nat) (g : Mat) : Mat × ℚ :=
  let out := (thread_ranges num_threads y_size).foldl
    (fun (acc : Mat × List ℚ) r =>
      let s := poisson_worker mask is_circle relaxation x_size y_size acc.1 r.1 r.2
      (s.1, acc.2 ++ [s.2]))
    (g, [])
  (out.1, out.2.foldl max 0)

/-- Concrete 3×3 instance: the only masked cell sits in the last row
(`ix = 1`, `iy = 2`). -/
def mask_c2 (ix iy : Nat) : Bool := ix = 1 && iy = 2

/-- Concrete 3×3 grid for the counterexample: `grid(0, 2) = 4`, rest 0. -/
def grid_c2 : Mat := [[0, 0, 4], [0, 0, 0], [0, 0, 0]]

/-- C2: with `num_threads = 2` on a 3-row grid the partition covers only rows
`{0, 1}` — the last worker's range is `[start, y_size − 1)` — while the
single-threaded sweep covers all rows; consequently a sweep with 2 threads
leaves a masked cell of the last row untouched and its result differs from
the single-threaded sweep, contradicting "one call applies the update exactly
once to every masked cell" and the claimed thread-count equivalence. -/
theorem poisson_grid_fill_threads_skip_last_row :
    (2 ∉ rows_processed 2 3 ∧ 2 ∈ rows_processed 1 3) ∧
    poisson_grid_fill_threaded mask_c2 false 1 3 3 2 grid_c2
      ≠ poisson_grid_fill_1 mask_c2 false 1 3 3 grid_c2 ∧
    poisson_grid_fill_threaded mask_c2 false 1 3 3 2 grid_c2 = (grid_c2, 0) ∧
    poisson_grid_fill_1 mask_c2 false 1 3 3 grid_c2
      = ([[0, 0, 4], [0, 0, 1], [0, 0, 0]], 1) := by
  refine ⟨by decide, ?_, ?_, ?_⟩ <;>
    simp [poisson_grid_fill_threaded, poisson_grid_fill_1, poisson_worker,
      poisson_row, cell_fill, thread_ranges, mget, mset, mask_c2, grid_c2,
      List.range', List.range_succ, List.range_zero, Prod.ext_iff]

/-! ### `fill::poisson` driver (src/unnamed/part_004, lines 195–246) -/

/-- `fill::FirstGuess`. -/
inductive FirstGuess
  | kZero
  | kZonalAverage

/-- `grid.hasNaN()`. -/
def has_nan (g : OMat) : Bool := g.any (fun row => row.any (fun v => v.isNone))

/-- The NaN mask computed by the driver: `grid.array().isNaN()`. -/
def nan_mask (g : OMat) : Nat → Nat → Bool := fun ix iy => (oget g ix iy).isNone

/-- Mean over the defined cells of column `iy` (`detail::set_zonal_average`:
the boost accumulator mean over unmasked cells, 0 when the band is empty). -/
def col_mean (g : OMat) (iy : Nat) : ℚ :=
  let vals := (List.range g.length).filterMap (fun ix => oget g ix iy)
  if vals.length = 0 then 0 else vals.sum / vals.length

/-- The first-guess grid: masked cells become 0 (`kZero`) or the zonal
average of their column (`kZonalAverage`); defined cells keep their value. -/
def first_guess_grid : FirstGuess → OMat → Mat
  | .kZero, g => g.map (fun row => row.map (fun v => v.getD 0))
  | .kZonalAverage, g =>
      g.map (fun row => row.mapIdx (fun iy v =>
        match v with
        | some x => x
        | none => col_mean g iy))

/-- The iteration loop of `fill::poisson`: each step increments the counter,
runs one relaxation sweep, and stops when the sweep's maximum residual falls
below `epsilon`; at most `fuel = max_iterations` sweeps run.  Returns
(iterations, last residual, final grid). -/
def poisson_loop (mask : Nat → Nat → Bool) (is_circle : Bool)
    (relaxation epsilon : ℚ) (x_size y_size : Nat) :
    Nat → Nat → ℚ → Mat → Nat × ℚ × Mat
  | 0, iteration, max_residual, g => (iteration, max_residual, g)
  | fuel + 1, iteration, _, g =>
    let s := poisson_grid_fill_1 mask is_circle relaxation x_size y_size g
    if s.2 < epsilon then (iteration + 1, s.2, s.1)
    else poisson_loop mask is_circle relaxation epsilon x_size y_size fuel
      (iteration + 1) s.2 s.1

/-- `fill::poisson` (single-threaded sweeps): returns
(iterations performed, last maximum residual). -/
def poisson (g : OMat) (fg : FirstGuess) (is_circle : Bool)
    (max_iterations : Nat) (epsilon relaxation : ℚ) : Nat × ℚ :=
  if ¬ has_nan g then (0, 0)
  else
    let out := poisson_loop (nan_mask g) is_circle relaxation epsilon
      g.length ((g.getD 0 []).length) max_iterations 0 0 (first_guess_grid fg g)
    (out.1, out.2.1)

/-- The sequence of (grid, sweep residual) states: state 0 is the first-guess
grid, state `n+1` the result of the `n+1`-st relaxation sweep. -/
def sweep_state (g : OMat) (fg : FirstGuess) (is_circle : Bool)
    (relaxation : ℚ) : Nat → Mat × ℚ
  | 0 => (first_guess_grid fg g, 0)
  | n + 1 =>
    poisson_grid_fill_1 (nan_mask g) is_circle relaxation
      g.length ((g.getD 0 []).length)
      (sweep_state g fg is_circle relaxation n).1

/-- Maximum absolute residual of the `n`-th sweep (`n ≥ 1`). -/
def res_at (g : OMat) (fg : FirstGuess) (is_circle : Bool) (relaxation : ℚ)
    (n : Nat) : ℚ :=
  (sweep_state g fg is_circle relaxation n).2

lemma poisson_loop_spec (mask : Nat → Nat → Bool) (is_circle : Bool)
    (relaxation epsilon : ℚ) (x_size y_size : Nat) (st : Nat → Mat × ℚ)
    (hst : ∀ n, st (n + 1) =
      poisson_grid_fill_1 mask is_circle relaxation x_size y_size (st n).1) :
    ∀ fuel k n r gf,
      poisson_loop mask is_circle relaxation epsilon x_size y_size fuel k
        (st k).2 (st k).1 = (n, r, gf) →
      k ≤ n ∧ n ≤ k + fuel ∧ (n < k + fuel → r < epsilon) ∧
      (∀ j, k < j → j < n → epsilon ≤ (st j).2) ∧
      r = (st n).2 ∧ gf = (st n).1 := by
  intro fuel
  induction fuel with
  | zero =>
    intro k n r gf h
    simp only [poisson_loop, Prod.mk.injEq] at h
    obtain ⟨h1, h2, h3⟩ := h
    subst h1
    refine ⟨le_refl _, by omega, by omega, ?_, h2.symm, h3.symm⟩
    intro j hj1 hj2
    omega
  | succ fuel ih =>
    intro k n r gf h
    simp only [poisson_loop] at h
    rw [← hst k] at h
    split at h
    · rename_i hlt
      simp only [Prod.mk.injEq] at h
      obtain ⟨h1, h2, h3⟩ := h
      subst h1
      refine ⟨by omega, by omega, fun _ => h2 ▸ hlt, ?_, h2.symm, h3.symm⟩
      intro j hj1 hj2
      omega
    · rename_i hge
      obtain ⟨ih1, ih2, ih3, ih4, ih5, ih6⟩ := ih (k + 1) n r gf h
      refine ⟨by omega, by omega, fun hlt => ih3 (by omega), ?_, ih5, ih6⟩
      intro j hj1 hj2
      rcases Nat.lt_or_ge k.succ j with hj | hj
      · exact ih4 j hj hj2
      · have : j = k + 1 := by omega
        subst this
        exact le_of_not_lt hge

/-- C8: `fill::poisson` performs at most `max_iterations` sweeps, stops
early exactly when a sweep's maximum absolute residual falls below `epsilon`
(every earlier sweep had residual ≥ `epsilon`), and returns the pair
(number of sweeps performed, maximum residual of the last sweep). -/
theorem poisson_terminates (g : OMat) (fg : FirstGuess) (is_circle : Bool)
    (M : Nat) (epsilon relaxation : ℚ) (n : Nat) (r : ℚ)
    (hε : 0 < epsilon)
    (hout : poisson g fg is_circle M epsilon relaxation = (n, r)) :
    n ≤ M ∧ (n < M → r < epsilon) ∧
    (∀ j, 1 ≤ j → j < n → epsilon ≤ res_at g fg is_circle relaxation j) ∧
    (1 ≤ n → r = res_at g fg is_circle relaxation n) := by
  unfold poisson at hout
  by_cases hn : has_nan g
  · simp only [hn, not_true_eq_false, if_false] at hout
    rcases hE : poisson_loop (nan_mask g) is_circle relaxation epsilon
        g.length ((g.getD 0 []).length) M 0 0 (first_guess_grid fg g)
      with ⟨n', r', gf⟩
    rw [hE] at hout
    simp only [Prod.mk.injEq] at hout
    obtain ⟨rfl, rfl⟩ := hout
    have hst : ∀ m, sweep_state g fg is_circle relaxation (m + 1) =
        poisson_grid_fill_1 (nan_mask g) is_circle relaxation
          g.length ((g.getD 0 []).length)
          (sweep_state g fg is_circle relaxation m).1 := fun _ => rfl
    obtain ⟨_, s2, s3, s4, s5, _⟩ :=
      poisson_loop_spec (nan_mask g) is_circle relaxation epsilon
        g.length ((g.getD 0 []).length)
        (sweep_state g fg is_circle relaxation) hst M 0 n' r' gf hE
    refine ⟨by omega, fun h => s3 (by omega), ?_, fun _ => s5⟩
    intro j hj1 hj2
    exact s4 j (by omega) hj2
  · simp only [hn, not_false_eq_true, if_true, Prod.mk.injEq] at hout
    obtain ⟨rfl, rfl⟩ := hout
    exact ⟨Nat.zero_le _, fun _ => hε, fun j hj1 hj2 => absurd hj2 (by omega),
      fun h => absurd h (by omega)⟩

/-- Concrete 2×2 grid for the `poisson_terminates` witness: one NaN cell. -/
def grid_c8 : OMat := [[some 0, none], [some 0, some 0]]

/-- Witness for `poisson_terminates` at `grid_c8`, zero first guess,
`max_iterations = 1`, `epsilon = 1`, `relaxation = 1`: the call returns
`(1, 0)`. -/
theorem poisson_terminates_witness :
    (0 : ℚ) < 1 ∧ poisson grid_c8 .kZero false 1 1 1 = (1, 0) ∧
    ((1 : Nat) ≤ 1 ∧ ((1 : Nat) < 1 → (0 : ℚ) < 1) ∧
      (∀ j, 1 ≤ j → j < 1 → (1 : ℚ) ≤ res_at grid_c8 .kZero false 1 j) ∧
      (1 ≤ 1 → (0 : ℚ) = res_at grid_c8 .kZero false 1 1)) := by
  have hout : poisson grid_c8 .kZero false 1 1 1 = (1, 0) := by
    simp [poisson, has_nan, nan_mask, oget, first_guess_grid, grid_c8,
      poisson_loop, poisson_grid_fill_1, poisson_worker, poisson_row,
      cell_fill, mget, mset, List.range']
  exact ⟨by norm_num, hout,
    poisson_terminates grid_c8 .kZero false 1 1 1 1 0 (by norm_num) hout⟩

/-! ## 2-D nearest binning (src/unnamed/part_004, `binning::NearestBivariate`)

The axis lookup `detail::Axis::find_index` is not among the available
sources (only its python binding is); it is modelled from the
specification. -/

/-- Modelled from the spec: the index of the axis coordinate closest to `x`
("for ascending axes this is `argmin|x − xᵢ|`"; "on exact midpoints … the
lower index is chosen" — `List.argmin` keeps the earliest minimiser). -/
def nearest_index (coords : List ℚ) (x : ℚ) : Nat :=
  ((List.range coords.length).argmin (fun i => |x - coords.getD i 0|)).getD 0

/-- Modelled from the spec: `Axis::find_index(x, bounded)` on an ascending
non-circular axis.  "If `bounded=false` and `x` lies outside `[min, max]`,
return −1; if `bounded=true`, clamp to the nearest endpoint." -/
def find_index (coords : List ℚ) (x : ℚ) (bounded : Bool) : Int :=
  if bounded = false ∧
      (x < coords.getD 0 0 ∨ coords.getD (coords.length - 1) 0 < x)
  then -1
  else (nearest_index coords x : Int)

/-- The bin state: for each cell, the list of `z` samples accumulated into
its boost accumulator (this records the accumulator's whole input). -/
abbrev BinMat := List (List (List ℚ))

/-- `acc_(ix, iy)(z)`: append the sample to the cell's accumulator. -/
def bin_push (b : BinMat) (ix iy : Nat) (z : ℚ) : BinMat :=
  b.set ix ((b.getD ix []).set iy ((b.getD ix []).getD iy [] ++ [z]))

def empty_bins (nx ny : Nat) : BinMat :=
  List.replicate nx (List.replicate ny [])

/-- `NearestBivariate::push`: for each sample, look up both axes with
`find_index(·, true)`, and accumulate `z` when both indexes differ from −1
and `z` is not NaN (`none`). -/
def push (xcoords ycoords : List ℚ) (b : BinMat)
    (samples : List (ℚ × ℚ × Option ℚ)) : BinMat :=
  samples.foldl (fun b s =>
    let ix := find_index xcoords s.1 true
    let iy := find_index ycoords s.2.1 true
    if ix ≠ -1 ∧ iy ≠ -1 then
      match s.2.2 with
      | some z => bin_push b ix.toNat iy.toNat z
      | none => b
    else b) b

lemma find_index_bounded_ne (coords : List ℚ) (x : ℚ) :
    find_index coords x true ≠ -1 := by
  simp [find_index]

lemma nearest_index_last (coords : List ℚ) (x : ℚ)
    (hsort : coords.Sorted (· < ·)) (hne : coords ≠ [])
    (hx : coords.getLast hne < x) :
    nearest_index coords x = coords.length - 1 := by
  have hn : 0 < coords.length := List.length_pos.mpr hne
  have hmem : coords.length - 1 ∈ List.range coords.length :=
    List.mem_range.mpr (by omega)
  have hrne : List.range coords.length ≠ [] := by
    simp only [ne_eq, List.range_eq_nil]
    omega
  rcases hm : (List.range coords.length).argmin
      (fun i => |x - coords.getD i 0|) with _ | m
  · exact absurd (List.argmin_eq_none.mp hm) hrne
  · have hmmem : m ∈ List.range coords.length := List.argmin_mem hm
    have hmlt : m < coords.length := List.mem_range.mp hmmem
    have hle := List.le_of_mem_argmin hmem (Option.mem_def.mpr hm)
    have hclast : coords.getD (coords.length - 1) 0 = coords.getLast hne := by
      rw [List.getLast_eq_getElem]
      exact List.getD_eq_getElem _ _ (by omega)
    have hcm_le : coords.getD m 0 ≤ coords.getLast hne := by
      rw [List.getLast_eq_getElem, List.getD_eq_getElem _ _ hmlt]
      rcases Nat.lt_or_ge m (coords.length - 1) with hm1 | hm1
      · have := hsort.get_strictMono
          (show (⟨m, hmlt⟩ : Fin coords.length) < ⟨coords.length - 1, by omega⟩
            from hm1)
        simpa [List.get_eq_getElem] using this.le
      · have : m = coords.length - 1 := by omega
        subst this
        exact le_refl _
    have hflast : |x - coords.getD (coords.length - 1) 0| =
        x - coords.getLast hne := by
      rw [hclast]
      exact abs_of_pos (by linarith)
    have habs : x - coords.getD m 0 ≤ |x - coords.getD m 0| := le_abs_self _
    have heq : coords.getD m 0 = coords.getLast hne := by
      simp only [hflast] at hle
      linarith
    have hmeq : m = coords.length - 1 := by
      by_contra hne2
      have hm1 : m < coords.length - 1 := by omega
      have := hsort.get_strictMono
        (show (⟨m, hmlt⟩ : Fin coords.length) < ⟨coords.length - 1, by omega⟩
          from hm1)
      rw [List.get_eq_getElem, List.get_eq_getElem] at this
      rw [List.getD_eq_getElem _ _ hmlt] at heq
      rw [List.getLast_eq_getElem] at heq
      exact absurd heq (ne_of_lt this)
    unfold nearest_index
    rw [hm]
    exact hmeq

lemma nearest_index_get (coords : List ℚ) (i : Nat)
    (hsort : coords.Sorted (· < ·)) (hi : i < coords.length) :
    nearest_index coords (coords.getD i 0) = i := by
  have hrne : List.range coords.length ≠ [] := by
    simp only [ne_eq, List.range_eq_nil]
    omega
  have hmem : i ∈ List.range coords.length := List.mem_range.mpr hi
  rcases hm : (List.range coords.length).argmin
      (fun j => |coords.getD i 0 - coords.getD j 0|) with _ | m
  · exact absurd (List.argmin_eq_none.mp hm) hrne
  · have hmlt : m < coords.length := List.mem_range.mp (List.argmin_mem hm)
    have hle := List.le_of_mem_argmin hmem (Option.mem_def.mpr hm)
    simp only [sub_self, abs_zero] at hle
    have heq : coords.getD m 0 = coords.getD i 0 := by
      have h0 : |coords.getD i 0 - coords.getD m 0| = 0 :=
        le_antisymm hle (abs_nonneg _)
      have := abs_eq_zero.mp h0
      linarith
    have hmeq : m = i := by
      rw [List.getD_eq_getElem _ _ hmlt, List.getD_eq_getElem _ _ hi] at heq
      have hgets : coords.get ⟨m, hmlt⟩ = coords.get ⟨i, hi⟩ := by
        simpa [List.get_eq_getElem] using heq
      have hinj := hsort.get_strictMono.injective hgets
      exact congrArg Fin.val hinj
    unfold nearest_index
    rw [hm]
    exact hmeq

/-- C4 (corrected): with the `bounded=true` lookup used by
`NearestBivariate::push`, an out-of-domain sample is NOT dropped: the lookup
never returns −1; a sample whose `x` exceeds the axis maximum is clamped
into the last (edge) X bin and accumulated at the nearest Y bin; only a
sample whose `z` is NaN is dropped. -/
theorem push_clamps_out_of_domain (xc yc : List ℚ) (x y z : ℚ) (b : BinMat)
    (hsort : xc.Sorted (· < ·)) (hne : xc ≠ []) (hx : xc.getLast hne < x) :
    find_index xc x true ≠ -1 ∧
    push xc yc b [(x, y, some z)] =
      bin_push b (xc.length - 1) (nearest_index yc y) z ∧
    push xc yc b [(x, y, none)] = b := by
  have hfx : find_index xc x true = ((nearest_index xc x : Nat) : Int) := by
    simp [find_index]
  have hfy : find_index yc y true = ((nearest_index yc y : Nat) : Int) := by
    simp [find_index]
  refine ⟨find_index_bounded_ne xc x, ?_, ?_⟩
  · simp only [push, List.foldl, hfx, hfy]
    rw [if_pos ⟨by omega, by omega⟩]
    simp only [Int.toNat_natCast]
    rw [nearest_index_last xc x hsort hne hx]
  · simp only [push, List.foldl, hfx, hfy]
    rw [if_pos ⟨by omega, by omega⟩]

/-- Witness for `push_clamps_out_of_domain`: axes `[0,1,2] × [0,1,2]`,
sample `(5, 1, 7)` — out of domain in X. -/
theorem push_clamps_out_of_domain_witness :
    ([0, 1, 2] : List ℚ).Sorted (· < ·) ∧
    (find_index [0, 1, 2] 5 true ≠ -1 ∧
      push [0, 1, 2] [0, 1, 2] (empty_bins 3 3) [(5, 1, some 7)] =
        bin_push (empty_bins 3 3) 2 (nearest_index [0, 1, 2] 1) 7 ∧
      push [0, 1, 2] [0, 1, 2] (empty_bins 3 3) [(5, 1, none)] =
        empty_bins 3 3) :=
  ⟨by decide, by
    have h := push_clamps_out_of_domain [0, 1, 2] [0, 1, 2] 5 1 7
      (empty_bins 3 3) (by decide) (by decide) (by decide)
    simpa using h⟩

/-- C4 counterexample: on axes `[0,1,2] × [0,1,2]`, the sample
`(x, y, z) = (5, 1, 7)` lies outside the X domain, yet `push` does not leave
the accumulators untouched: the sample lands in bin `(2, 1)`. -/
theorem push_out_of_domain_counterexample :
    push [0, 1, 2] [0, 1, 2] (empty_bins 3 3) [(5, 1, some 7)]
      ≠ empty_bins 3 3 ∧
    push [0, 1, 2] [0, 1, 2] (empty_bins 3 3) [(5, 1, some 7)]
      = [[[], [], []], [[], [], []], [[], [7], []]] := by
  have hfx : find_index ([0, 1, 2] : List ℚ) 5 true =
      ((nearest_index [0, 1, 2] 5 : Nat) : Int) := by
    simp [find_index]
  have hfy : find_index ([0, 1, 2] : List ℚ) 1 true =
      ((nearest_index [0, 1, 2] 1 : Nat) : Int) := by
    simp [find_index]
  have h5 : nearest_index ([0, 1, 2] : List ℚ) 5 = 2 :=
    nearest_index_last [0, 1, 2] 5 (by decide) (by decide) (by decide)
  have h1 : nearest_index ([0, 1, 2] : List ℚ) 1 = 1 :=
    nearest_index_get [0, 1, 2] 1 (by decide) (by decide)
  have hpush : push [0, 1, 2] [0, 1, 2] (empty_bins 3 3) [(5, 1, some 7)]
      = bin_push (empty_bins 3 3) 2 1 7 := by
    simp only [push, List.foldl, hfx, hfy, h5, h1]
    rw [if_pos ⟨by omega, by omega⟩]
    simp only [Int.toNat_natCast]
  rw [hpush]
  exact ⟨by decide, by decide⟩

/-! ## Geodetic R*-tree
(src/src/core/include/pyinterp/detail/geodetic/rtree.hpp)

Stored entries are ECEF points (`Point3`) with an attached value.  The
coordinate conversions (`Coordinates::lla_to_ecef`, `ecef_to_lla`, Bowring /
Heikkinen formulas) and the haversine strategy are external collaborators;
they enter the embedding as explicit function parameters.  For a fixed
query point, `rep p` is the reported distance
`boost::geometry::distance(point, ecef_to_lla(p), strategy_)` — the
haversine distance computed on LLA coordinates. -/

abbrev Point3 := ℚ × ℚ × ℚ

/-- `RTree::insert<2>`: for each coordinate row the point is completed with
altitude 0, converted to ECEF, and handed to the base-class insert — and
nothing else: the `values(ix)` entry is never passed on (contrast
`packing<2>`, which stores the pair `(lla_to_ecef(point), values(ix))`).
The base class `geometry::RTree` is not among the available sources; its
insert is modelled from the spec as storing what it receives, so the tree
state is the list of ECEF points the call site supplies.  The `values`
argument takes part only in the shape check
(`coordinates.rows() != values.size()` throws). -/
def rtree_insert_2d (lla_to_ecef : ℚ × ℚ × ℚ → Point3) (tree : List Point3)
    (coordinates : List (ℚ × ℚ)) (values : List ℚ) :
    Except Unit (List Point3) :=
  if coordinates.length ≠ values.length then .error ()
  else .ok (tree ++ coordinates.map (fun c => lla_to_ecef (c.1, c.2, 0)))

/-- C3 (code bug): the tree state produced by `RTree::insert` does not
depend on the values passed in — they are discarded at the call to the
base-class insert — so no later nearest-neighbour query can report the
value passed to `insert` for a point. -/
theorem rtree_insert_ignores_values (lla_to_ecef : ℚ × ℚ × ℚ → Point3)
    (tree : List Point3) (coordinates : List (ℚ × ℚ)) (v w : List ℚ)
    (h : v.length = w.length) :
    rtree_insert_2d lla_to_ecef tree coordinates v =
      rtree_insert_2d lla_to_ecef tree coordinates w := by
  simp only [rtree_insert_2d, h]

/-- Witness for `rtree_insert_ignores_values`: inserting the point (0, 0)
with value 5 produces the same tree as inserting it with value 7. -/
theorem rtree_insert_ignores_values_witness :
    ([5] : List ℚ).length = ([7] : List ℚ).length ∧
    rtree_insert_2d (fun p => p) [] [(0, 0)] [5] =
      rtree_insert_2d (fun p => p) [] [(0, 0)] [7] :=
  ⟨rfl, rtree_insert_ignores_values (fun p => p) [] [(0, 0)] [5] [7] rfl⟩

/-- `RTree::query_ball`: iterate over the stored entries satisfying
`distance(ecef_to_lla(item.first), point, strategy_) < radius` (strict!),
and pair each with that distance.  `rep` is the composite distance function
for the fixed query point. -/
def query_ball (rep : Point3 → ℚ) (tree : List (Point3 × ℚ)) (radius : ℚ) :
    List (ℚ × ℚ) :=
  (tree.filter (fun item => rep item.1 < radius)).map
    (fun item => (rep item.1, item.2))

/-- C5 (corrected): `query_ball` returns exactly the stored points whose
haversine distance to the target is STRICTLY LESS than `radius` (not "at
most"), each paired with that distance. -/
theorem query_ball_mem_iff (rep : Point3 → ℚ) (tree : List (Point3 × ℚ))
    (radius : ℚ) (p : ℚ × ℚ) :
    p ∈ query_ball rep tree radius ↔
      ∃ item ∈ tree, rep item.1 < radius ∧ p = (rep item.1, item.2) := by
  simp only [query_ball, List.mem_map, List.mem_filter, decide_eq_true_eq]
  constructor
  · rintro ⟨item, ⟨hmem, hlt⟩, rfl⟩
    exact ⟨item, hmem, hlt, rfl⟩
  · rintro ⟨item, hmem, hlt, rfl⟩
    exact ⟨item, ⟨hmem, hlt⟩, rfl⟩

/-- C5 counterexample: a stored point at haversine distance exactly 0 from
the target (`rep` constantly 0 — a stored copy of the target itself) is
excluded by `query_ball` with `radius = 0`, although its distance is
`≤ radius`; so "appears iff at most r" is false. -/
theorem query_ball_at_radius_excluded :
    query_ball (fun _ => 0) [((0, 0, 0), 5)] 0 = [] ∧
    ((fun (_ : Point3) => (0 : ℚ)) (0, 0, 0)) ≤ 0 ∧
    ((0 : ℚ), (5 : ℚ)) ∉ query_ball (fun _ => 0) [((0, 0, 0), 5)] 0 := by
  refine ⟨?_, le_refl 0, ?_⟩ <;> simp [query_ball]

/-- Squared Cartesian (ECEF) distance, the order used by
`boost::geometry::index::nearest` on the stored points. -/
def sqDist (p q : Point3) : ℚ :=
  (p.1 - q.1) ^ 2 + (p.2.1 - q.2.1) ^ 2 + (p.2.2 - q.2.2) ^ 2

/-- Stable insertion into a list sorted by distance to `tgt`. -/
def insertByDist (tgt : Point3) (item : Point3 × ℚ) :
    List (Point3 × ℚ) → List (Point3 × ℚ)
  | [] => [item]
  | b :: rest =>
    if sqDist item.1 tgt < sqDist b.1 tgt then item :: b :: rest
    else b :: insertByDist tgt item rest

def sortByDist (tgt : Point3) (items : List (Point3 × ℚ)) :
    List (Point3 × ℚ) :=
  items.foldr (insertByDist tgt) []

/-- `boost::geometry::index::nearest(target, k)` over the stored entries:
up to `k` entries in order of increasing Cartesian distance to the target. -/
def kNearest (items : List (Point3 × ℚ)) (tgt : Point3) (k : Nat) :
    List (Point3 × ℚ) :=
  (sortByDist tgt items).take k

/-- `boost::geometry::covered_by(point, return_envelope(multi_point))`: the
envelope is the axis-aligned bounding box of the points in Cartesian (ECEF)
space; the envelope of no points covers nothing. -/
def env_covered_by (pts : List Point3) (q : Point3) : Bool :=
  match pts with
  | [] => false
  | p :: rest =>
    let lo := rest.foldl
      (fun (a : Point3) b => (min a.1 b.1, min a.2.1 b.2.1, min a.2.2 b.2.2)) p
    let hi := rest.foldl
      (fun (a : Point3) b => (max a.1 b.1, max a.2.1 b.2.1, max a.2.2 b.2.2)) p
    decide (lo.1 ≤ q.1 ∧ q.1 ≤ hi.1 ∧ lo.2.1 ≤ q.2.1 ∧ q.2.1 ≤ hi.2.1 ∧
      lo.2.2 ≤ q.2.2 ∧ q.2.2 ≤ hi.2.2)

/-- `RTree::query(point, k)` (plain k-nearest): the k nearest stored entries
with their reported haversine distances. -/
def query_k (items : List (Point3 × ℚ)) (tgt : Point3) (k : Nat)
    (rep : Point3 → ℚ) : List (ℚ × ℚ) :=
  (kNearest items tgt k).map (fun it => (rep it.1, it.2))

/-- `RTree::query_within(point, k)`: run the k-nearest query, and clear the
result when the target's ECEF point is not covered by the envelope of the
neighbours' ECEF points. -/
def query_within (items : List (Point3 × ℚ)) (tgt : Point3) (k : Nat)
    (rep : Point3 → ℚ) : List (ℚ × ℚ) :=
  let nn := kNearest items tgt k
  if env_covered_by (nn.map Prod.fst) tgt then
    nn.map (fun it => (rep it.1, it.2))
  else []

/-- C6: `query_within` returns the empty result exactly when the target's
ECEF point is not covered by the axis-aligned Cartesian bounding box of its
k nearest neighbours; when it is covered, the result is exactly that of the
plain k-nearest query. -/
theorem query_within_spec (items : List (Point3 × ℚ)) (tgt : Point3)
    (k : Nat) (rep : Point3 → ℚ) :
    (query_within items tgt k rep = [] ↔
      env_covered_by ((kNearest items tgt k).map Prod.fst) tgt = false) ∧
    (env_covered_by ((kNearest items tgt k).map Prod.fst) tgt = true →
      query_within items tgt k rep = query_k items tgt k rep) := by
  constructor
  · rcases hc : env_covered_by ((kNearest items tgt k).map Prod.fst) tgt with _ | _
    · simp [query_within, hc]
    · simp only [query_within, hc, if_true]
      constructor
      · intro hmap
        have hfst : (kNearest items tgt k).map Prod.fst = [] := by
          rcases hnil : kNearest items tgt k with _ | ⟨a, rest⟩
          · simp [hnil]
          · rw [hnil] at hmap
            exact absurd hmap (by simp)
        rw [hfst] at hc
        exact absurd hc (by simp [env_covered_by])
      · intro hfalse
        exact absurd hfalse (by simp)
  · intro hc
    simp [query_within, query_k, hc]

/-- Witness for `query_within_spec` at a singleton tree whose only point is
the target itself: the envelope covers the target and the result equals the
plain query. -/
theorem query_within_spec_witness :
    env_covered_by ((kNearest [((0, 0, 0), 5)] (0, 0, 0) 1).map Prod.fst)
      (0, 0, 0) = true ∧
    query_within [((0, 0, 0), 5)] (0, 0, 0) 1 (fun _ => 0) =
      query_k [((0, 0, 0), 5)] (0, 0, 0) 1 (fun _ => 0) :=
  ⟨by decide, (query_within_spec [((0, 0, 0), 5)] (0, 0, 0) 1 (fun _ => 0)).2
    (by decide)⟩

/-- One target of the vectorised `RTree::query<Dimensions>`: the method is
`query_within` when `within` is set, the plain `query` otherwise. -/
def query_vec_nearest (within : Bool) (items : List (Point3 × ℚ))
    (tgt : Point3) (k : Nat) (rep : Point3 → ℚ) : List (ℚ × ℚ) :=
  if within then query_within items tgt k rep else query_k items tgt k rep

/-- The row of the vectorised query's distance and value matrices for one
target: the neighbours found, then `-1` entries up to column `k`. -/
def query_vec_row (within : Bool) (items : List (Point3 × ℚ)) (tgt : Point3)
    (k : Nat) (rep : Point3 → ℚ) : List ℚ × List ℚ :=
  let nearest := query_vec_nearest within items tgt k rep
  (nearest.map Prod.fst ++ List.replicate (k - nearest.length) (-1),
   nearest.map Prod.snd ++ List.replicate (k - nearest.length) (-1))

lemma getD_pad_neg_one (l : List ℚ) (jx k : Nat) (h1 : l.length ≤ jx)
    (h2 : jx < k) :
    (l ++ List.replicate (k - l.length) (-1 : ℚ)).getD jx 0 = -1 := by
  rw [List.getD_append_right _ _ _ _ h1]
  rw [List.getD_eq_getElem _ _ (by simp; omega)]
  simp

lemma query_vec_nearest_length_le (within : Bool)
    (items : List (Point3 × ℚ)) (tgt : Point3) (k : Nat) (rep : Point3 → ℚ) :
    (query_vec_nearest within items tgt k rep).length ≤ k := by
  rcases within with _ | _
  · simp only [query_vec_nearest, Bool.false_eq_true, if_false, query_k,
      List.length_map, kNearest, List.length_take]
    omega
  · simp only [query_vec_nearest, if_true, query_within]
    split
    · simp only [List.length_map, kNearest, List.length_take]
      omega
    · simp

/-- C10: in the vectorised k-nearest query, when a target produces fewer
than `k` neighbours (including a target rejected entirely by
`within=true`), the remaining entries of its row in both the distance and
the value matrix are `-1`. -/
theorem query_vec_row_pads (within : Bool) (items : List (Point3 × ℚ))
    (tgt : Point3) (k : Nat) (rep : Point3 → ℚ) (jx : Nat)
    (hge : (query_vec_nearest within items tgt k rep).length ≤ jx)
    (hlt : jx < k) :
    (query_vec_row within items tgt k rep).1.getD jx 0 = -1 ∧
    (query_vec_row within items tgt k rep).2.getD jx 0 = -1 := by
  unfold query_vec_row
  constructor
  · have := getD_pad_neg_one
      ((query_vec_nearest within items tgt k rep).map Prod.fst) jx k
      (by simpa using hge) hlt
    simpa using this
  · have := getD_pad_neg_one
      ((query_vec_nearest within items tgt k rep).map Prod.snd) jx k
      (by simpa using hge) hlt
    simpa using this

/-- Witness for `query_vec_row_pads`: a one-point tree queried with `k = 2`
yields one neighbour; column 1 of both matrices is `-1`. -/
theorem query_vec_row_pads_witness :
    (query_vec_nearest false [((0, 0, 0), 5)] (0, 0, 0) 2
      (fun _ => 3)).length ≤ 1 ∧ 1 < 2 ∧
    (query_vec_row false [((0, 0, 0), 5)] (0, 0, 0) 2
      (fun _ => 3)).1.getD 1 0 = -1 ∧
    (query_vec_row false [((0, 0, 0), 5)] (0, 0, 0) 2
      (fun _ => 3)).2.getD 1 0 = -1 := by
  refine ⟨by decide, by decide, ?_⟩
  exact query_vec_row_pads false [((0, 0, 0), 5)] (0, 0, 0) 2 (fun _ => 3) 1
    (by decide) (by decide)

/-! ## 2-D spline interpolation driver (src/unnamed/part_005,
`pyinterp::spline`)

The driver calls `load_frame(grid, xi, yi, boundary, bounds_error, frame)`;
on success it interpolates (the GSL `Spline2D` kernel enters as the
parameter `interp`), on failure it writes NaN (`none`); an exception thrown
by `load_frame` is captured and rethrown after the join, and the call's
results are discarded.  `load_frame` itself (xarray.hpp) is not among the
available sources and is modelled from the spec. -/

/-- The error raised for a target outside a non-circular axis domain. -/
inductive SplineError
  | outOfDomain
deriving DecidableEq

/-- Whether `x` lies inside the (ascending, non-circular) axis domain. -/
def in_domain (coords : List ℚ) (x : ℚ) : Bool :=
  decide (coords.getD 0 0 ≤ x ∧ x ≤ coords.getD (coords.length - 1) 0)

/-- Modelled from the spec: `pyinterp::load_frame` for a 2-D grid (the frame
loader of xarray.hpp, absent from the sources).  "When true, a target
outside the (non-circular) axis domain raises OutOfDomain; when false, the
target's result is NaN" — the loader returns whether the frame could be
loaded, raising instead of returning `false` when `bounds_error` is set. -/
def load_frame (xc yc : List ℚ) (x y : ℚ) (bounds_error : Bool) :
    Except SplineError Bool :=
  if in_domain xc x && in_domain yc y then .ok true
  else if bounds_error then .error .outOfDomain
  else .ok false

/-- The per-target loop of `pyinterp::spline`: frame loaded → interpolate;
not loaded → NaN (`none`); exception → the whole call fails. -/
def spline_eval (xc yc : List ℚ) (interp : ℚ → ℚ → ℚ) (bounds_error : Bool) :
    List (ℚ × ℚ) → Except SplineError (List (Option ℚ))
  | [] => .ok []
  | (xi, yi) :: rest =>
    match load_frame xc yc xi yi bounds_error with
    | .error e => .error e
    | .ok true =>
      match spline_eval xc yc interp bounds_error rest with
      | .error e => .error e
      | .ok l => .ok (some (interp xi yi) :: l)
    | .ok false =>
      match spline_eval xc yc interp bounds_error rest with
      | .error e => .error e
      | .ok l => .ok (none :: l)

lemma spline_eval_false_eq (xc yc : List ℚ) (interp : ℚ → ℚ → ℚ) :
    ∀ targets : List (ℚ × ℚ),
      spline_eval xc yc interp false targets =
        .ok (targets.map (fun t =>
          if in_domain xc t.1 && in_domain yc t.2 then some (interp t.1 t.2)
          else none)) := by
  intro targets
  induction targets with
  | nil => rfl
  | cons t rest ih =>
    obtain ⟨xi, yi⟩ := t
    rcases hd : in_domain xc xi && in_domain yc yi with _ | _ <;>
      simp [spline_eval, load_frame, hd, ih, ← Bool.and_eq_true]

lemma spline_eval_true_err (xc yc : List ℚ) (interp : ℚ → ℚ → ℚ) :
    ∀ targets : List (ℚ × ℚ),
      (∃ t ∈ targets, (in_domain xc t.1 && in_domain yc t.2) = false) →
      spline_eval xc yc interp true targets = .error .outOfDomain := by
  intro targets
  induction targets with
  | nil =>
    rintro ⟨t, ht, _⟩
    exact absurd ht (List.not_mem_nil t)
  | cons t rest ih =>
    rintro ⟨u, hu, hd⟩
    obtain ⟨xi, yi⟩ := t
    rcases List.mem_cons.mp hu with rfl | hmem
    · simp only at hd
      simp [spline_eval, load_frame, hd]
    · have hrest := ih ⟨u, hmem, hd⟩
      rcases hhd : in_domain xc xi && in_domain yc yi with _ | _ <;>
        simp [spline_eval, load_frame, hhd, hrest]

/-- C7: for the 2-D spline driver, a target outside a (non-circular) axis
domain — for which the frame cannot be loaded — yields NaN in its output
element when `bounds_error = false`, and makes the whole call raise
OutOfDomain when `bounds_error = true`. -/
theorem spline_out_of_domain (xc yc : List ℚ) (interp : ℚ → ℚ → ℚ)
    (targets : List (ℚ × ℚ)) (j : Nat) (hj : j < targets.length)
    (hout : (in_domain xc (targets.getD j (0, 0)).1 &&
      in_domain yc (targets.getD j (0, 0)).2) = false) :
    spline_eval xc yc interp false targets =
      .ok (targets.map (fun t =>
        if in_domain xc t.1 && in_domain yc t.2 then some (interp t.1 t.2)
        else none)) ∧
    (targets.map (fun t =>
      if in_domain xc t.1 && in_domain yc t.2 then some (interp t.1 t.2)
      else none)).getD j (some 0) = none ∧
    spline_eval xc yc interp true targets = .error .outOfDomain := by
  refine ⟨spline_eval_false_eq xc yc interp targets, ?_, ?_⟩
  · rw [List.getD_eq_getElem _ _ (by simpa using hj), List.getElem_map]
    rw [show targets[j] = targets.getD j (0, 0) from
      (List.getD_eq_getElem _ _ hj).symm]
    have hcond : ¬ ((in_domain xc (targets.getD j (0, 0)).1 &&
        in_domain yc (targets.getD j (0, 0)).2) = true) := by
      rw [hout]
      exact Bool.false_ne_true
    rw [if_neg hcond]
  · refine spline_eval_true_err xc yc interp targets
      ⟨targets.getD j (0, 0), ?_, hout⟩
    rw [List.getD_eq_getElem _ _ hj]
    exact List.getElem_mem _

/-- Witness for `spline_out_of_domain`: axes `[0,1] × [0,1]`, single target
`(5, 0)` outside the X domain. -/
theorem spline_out_of_domain_witness :
    (0 : Nat) < 1 ∧
    (in_domain [0, 1] 5 && in_domain [0, 1] 0) = false ∧
    spline_eval [0, 1] [0, 1] (fun _ _ => 0) false [(5, 0)] = .ok [none] ∧
    spline_eval [0, 1] [0, 1] (fun _ _ => 0) true [(5, 0)] =
      .error .outOfDomain := by
  have h := spline_out_of_domain [0, 1] [0, 1] (fun _ _ => 0) [(5, 0)] 0
    (by decide) (by decide)
  refine ⟨by decide, by decide, ?_, h.2.2⟩
  have h1 := h.1
  simpa [in_domain] using h1


/-! ## LOESS gap fill (src/unnamed/part_004, `fill::loess`)

The input grid is taken by const reference and the result written to a
newly allocated array, so the embedding is a pure function from the input
grid to the output matrix.  `Axis::find_indexes(coordinate, n, kSym)` is
not among the available sources and is modelled from the spec (window of
`2n` indices around the base index, mirror boundary).  The tri-cube weight
`d <= 1 ? (1 - d^3)^3 : 0` with `d = sqrt(d2)` involves a square root, so it
enters the embedding as the parameter `w` applied to the squared normalised
distance `d2` (of which it is a function). -/

structure Grid2 where
  xc : List ℚ
  yc : List ℚ
  vals : OMat

/-- `grid.value(ix, iy)` (`none` = NaN). -/
def grid_value (g : Grid2) (ix iy : Nat) : Option ℚ := oget g.vals ix iy

/-- Mirror an out-of-range index back towards `[0, m)` ("Sym: mirror",
matching the mirror convention of the Poisson edge handling: the neighbour
of 0 is 1, the neighbour of `m−1` is `m−2`). -/
def mirror_index (m : Nat) (j : Int) : Nat :=
  if j < 0 then (-j).toNat else if (m : Int) ≤ j then 2 * (m - 1) - j.toNat
  else j.toNat

/-- Modelled from the spec: `Axis::find_indexes(x, n, kSym)` — the window of
`2n` indices `[i−n .. i+n−1]` around the base index of `x`, mirrored at the
boundaries. -/
def find_indexes_sym (coords : List ℚ) (x : ℚ) (n : Nat) : List Nat :=
  let i := nearest_index coords x
  (List.range (2 * n)).map (fun t =>
    mirror_index coords.length ((i : Int) - (n : Int) + (t : Int)))

/-- The accumulation loop of `fill::loess` for one masked cell at `(x, y)`:
sum of `wi * zi` and sum of `wi` over the defined samples of the window,
where `wi = w d2` and `d2 = ((xs(wx) − x)/nx)² + ((ys(wy) − y)/ny)²`. -/
def loess_acc (g : Grid2) (w : ℚ → ℚ) (nx ny : Nat) (x y : ℚ) : ℚ × ℚ :=
  (find_indexes_sym g.xc x nx).foldl (fun acc wx =>
    (find_indexes_sym g.yc y ny).foldl (fun acc wy =>
      match grid_value g wx wy with
      | some zi =>
        let d2 := ((g.xc.getD wx 0 - x) / nx) ^ 2 +
          ((g.yc.getD wy 0 - y) / ny) ^ 2
        (acc.1 + w d2 * zi, acc.2 + w d2)
      | none => acc) acc)
    (0, 0)

/-- `fill::loess`: a newly built matrix; defined cells are copied, masked
cells receive `value/weight` when the accumulated weight is nonzero and
stay NaN otherwise. -/
def loess (g : Grid2) (w : ℚ → ℚ) (nx ny : Nat) : OMat :=
  (List.range g.xc.length).map (fun ix =>
    (List.range g.yc.length).map (fun iy =>
      match grid_value g ix iy with
      | some z => some z
      | none =>
        let acc := loess_acc g w nx ny (g.xc.getD ix 0) (g.yc.getD iy 0)
        if acc.2 ≠ 0 then some (acc.1 / acc.2) else none))

lemma oget_map_range (f : Nat → Nat → Option ℚ) (nx ny ix iy : Nat)
    (hix : ix < nx) (hiy : iy < ny) :
    oget ((List.range nx).map (fun i => (List.range ny).map (f i))) ix iy =
      f ix iy := by
  unfold oget
  rw [List.getD_eq_getElem
    ((List.range nx).map (fun i => (List.range ny).map (f i))) []
    (by simpa using hix)]
  rw [List.getElem_map, List.getElem_range]
  rw [List.getD_eq_getElem _ _ (by simpa using hiy)]
  rw [List.getElem_map, List.getElem_range]

lemma loess_cell (g : Grid2) (w : ℚ → ℚ) (nx ny ix iy : Nat)
    (hix : ix < g.xc.length) (hiy : iy < g.yc.length) :
    oget (loess g w nx ny) ix iy =
      match grid_value g ix iy with
      | some z => some z
      | none =>
        let acc := loess_acc g w nx ny (g.xc.getD ix 0) (g.yc.getD iy 0)
        if acc.2 ≠ 0 then some (acc.1 / acc.2) else none :=
  oget_map_range
    (fun ix iy =>
      match grid_value g ix iy with
      | some z => some z
      | none =>
        let acc := loess_acc g w nx ny (g.xc.getD ix 0) (g.yc.getD iy 0)
        if acc.2 ≠ 0 then some (acc.1 / acc.2) else none)
    g.xc.length g.yc.length ix iy hix hiy

/-- C9: `fill::loess` is non-destructive and frame-preserving: the result is
a new matrix built from the unmodified input, every cell defined in the
input keeps exactly its input value, and a NaN cell stays NaN when its
window accumulates zero total weight and receives the weighted mean
`value/weight` otherwise. -/
theorem loess_frame (g : Grid2) (w : ℚ → ℚ) (nx ny ix iy : Nat)
    (hix : ix < g.xc.length) (hiy : iy < g.yc.length) :
    (∀ z, grid_value g ix iy = some z →
      oget (loess g w nx ny) ix iy = some z) ∧
    (grid_value g ix iy = none →
      (loess_acc g w nx ny (g.xc.getD ix 0) (g.yc.getD iy 0)).2 = 0 →
      oget (loess g w nx ny) ix iy = none) ∧
    (grid_value g ix iy = none →
      (loess_acc g w nx ny (g.xc.getD ix 0) (g.yc.getD iy 0)).2 ≠ 0 →
      oget (loess g w nx ny) ix iy = some
        ((loess_acc g w nx ny (g.xc.getD ix 0) (g.yc.getD iy 0)).1 /
         (loess_acc g w nx ny (g.xc.getD ix 0) (g.yc.getD iy 0)).2)) := by
  refine ⟨?_, ?_, ?_⟩
  · intro z hz
    rw [loess_cell g w nx ny ix iy hix hiy, hz]
  · intro hz hw
    rw [loess_cell g w nx ny ix iy hix hiy, hz]
    simp only [hw, ne_eq, not_true_eq_false, if_false]
  · intro hz hw
    rw [loess_cell g w nx ny ix iy hix hiy, hz]
    simp only [ne_eq, hw, not_false_eq_true, if_true]

/-- Concrete one-cell grid with a defined value, for the witness. -/
def grid_c9a : Grid2 := ⟨[0], [0], [[some 3]]⟩

/-- Concrete one-cell grid whose only cell is NaN, for the witness. -/
def grid_c9b : Grid2 := ⟨[0], [0], [[none]]⟩

/-- Witness for `loess_frame`: a defined cell keeps its value; a NaN cell
whose window contributes zero weight (weight function constantly 0) stays
NaN. -/
theorem loess_frame_witness :
    grid_value grid_c9a 0 0 = some 3 ∧
    oget (loess grid_c9a (fun _ => 0) 1 1) 0 0 = some 3 ∧
    grid_value grid_c9b 0 0 = none ∧
    (loess_acc grid_c9b (fun _ => 0) 1 1
      (grid_c9b.xc.getD 0 0) (grid_c9b.yc.getD 0 0)).2 = 0 ∧
    oget (loess grid_c9b (fun _ => 0) 1 1) 0 0 = none := by
  have hni : nearest_index ([0] : List ℚ) 0 = 0 :=
    nearest_index_get [0] 0 (by decide) (by decide)
  have hwin : find_indexes_sym ([0] : List ℚ) 0 1 = [1, 0] := by
    rw [find_indexes_sym]
    rw [hni]
    decide
  have hza : (loess_acc grid_c9b (fun _ => 0) 1 1
      (grid_c9b.xc.getD 0 0) (grid_c9b.yc.getD 0 0)).2 = 0 := by
    rw [loess_acc]
    norm_num [grid_c9b, hwin, grid_value, oget]
  refine ⟨rfl, ?_, rfl, hza, ?_⟩
  · exact (loess_frame grid_c9a (fun _ => 0) 1 1 0 0 (by decide) (by decide)).1
      3 rfl
  · exact (loess_frame grid_c9b (fun _ => 0) 1 1 0 0
      (by decide) (by decide)).2.1 rfl hza

end PyInterp
